import Mathlib

/-!
Shallow embedding of `src/art/attacks/saliency_map.py` (class `SaliencyMapMethod`,
the Jacobian-based Saliency Map Attack) and proofs about it.

Modelling conventions:
* A sample is a flat feature vector `List ℚ` of length `F` (the code flattens the
  input to `(-1, nb_features)` at line 60, so all algorithmic work is on flat rows).
* numpy float arrays holding 0/1 masks (`search_space`, `all_feat`) are `List Bool`
  rows; their numpy sums become `countTrue`.
* `np.inf` appears only inside `_saliency_map` where ineligible features' gradients
  are overwritten by `-inf * coeff`; gradients are therefore modelled in the type
  `XQ := WithBot (WithTop ℚ)` (`⊥` = `-inf`, `⊤` = `+inf`, finite values coerced).
* The classifier collaborator is abstract: `predict` returns the top-1 class
  (the code always takes `argmax` of the score vector immediately) and
  `classGradient` returns the gradient of the target class w.r.t. the features.
* numpy *advanced* (integer-array) indexing such as `all_feat[active_indices]`
  returns a copy; an assignment into that copy is discarded.  numpy *boolean mask*
  assignment on the array itself (e.g. `search_space[batch == clip_value] = 0`)
  and *basic slice* assignment mutate the array.  The embedding reproduces exactly
  these semantics.
-/

/-- Extended rationals with `-inf` (`⊥`) and `+inf` (`⊤`), the value space of the
masked gradient array in `_saliency_map`. -/
abbrev XQ : Type := WithBot (WithTop ℚ)

/-- Embed a finite gradient value into `XQ`. -/
def fq (q : ℚ) : XQ := ((q : WithTop ℚ) : XQ)

/-- Number of `true` entries of a boolean mask row (numpy `np.sum` of a 0/1 row). -/
def countTrue (l : List Bool) : ℕ := (l.filter id).length

/-- First index among `cand` attaining the maximal value of `m` (entries outside
`m` read as `⊥`).  Used to model one coefficient returned by `np.argpartition`;
numpy leaves tie-breaking unspecified, the model fixes first-index-wins. -/
def bestIdx (m : List XQ) : List ℕ → ℕ
  | [] => 0
  | [c] => c
  | c :: c' :: cs =>
      if m.getD c ⊥ < m.getD (bestIdx m (c' :: cs)) ⊥ then bestIdx m (c' :: cs) else c

/-- Indices of the two largest entries of `m` (model of
`np.argpartition(m, -2)[-2:]` for one row: two distinct positions carrying the
two largest values, tie-breaking fixed deterministically). -/
def top2 (m : List XQ) : ℕ × ℕ :=
  let j0 := bestIdx m (List.range m.length)
  let j1 := bestIdx m ((List.range m.length).filter (fun k => k ≠ j0))
  (j0, j1)

/-- The classifier collaborator (`self.classifier`): `predict` is the top-1 class
of the score vector (the code uses only `np.argmax(classifier.predict(...))`),
`classGradient` the gradient of the target class score w.r.t. the flat features. -/
structure Classifier where
  nbClasses : ℕ
  predict : List ℚ → ℕ
  classGradient : List ℚ → ℕ → List ℚ

/-- Lines 172-175 of `_saliency_map`: overwrite the gradients of already-used
(ineligible) features by `-np.inf * coeff`, where `coeff = 2*int(theta>0)-1`:
`-inf` when `theta > 0`, `+inf` otherwise. -/
def maskGrads (theta : ℚ) (grads : List ℚ) (srow : List Bool) : List XQ :=
  List.zipWith
    (fun g s => if s then fq g else (if 0 < theta then (⊥ : XQ) else ((⊤ : WithTop ℚ) : XQ)))
    grads srow

/-- Negation on `XQ` (numpy `-grads` on an array containing `±inf`). -/
def xneg (x : XQ) : XQ :=
  match x with
  | Option.none => ((⊤ : WithTop ℚ) : XQ)
  | Option.some Option.none => (⊥ : XQ)
  | Option.some (Option.some q) => fq (-q)

/-- `SaliencyMapMethod._saliency_map` (lines 155-182) for a single sample:
compute the target-class gradient, force ineligible features to the appropriate
infinity, and return the two top coefficients — the two largest masked gradients
when `theta > 0` (line 178), otherwise the two largest of the negated masked
gradients, i.e. the two smallest (line 180). -/
def saliencyMap (clf : Classifier) (theta : ℚ) (x : List ℚ) (target : ℕ)
    (srow : List Bool) : ℕ × ℕ :=
  let grads := clf.classGradient x target
  let m := maskGrads theta grads srow
  if 0 < theta then top2 m else top2 (m.map xneg)

/-- Per-batch mutable state of `SaliencyMapMethod.generate` (lines 74-122):
the working copy of the rows (`batch`, a basic-slice view of `x_adv`), the
eligibility mask (`search_space`), the used-feature mask (`all_feat`), the most
recent predictions and the per-sample targets. -/
structure BatchState where
  batch : List (List ℚ)
  searchSpace : List (List Bool)
  allFeat : List (List Bool)
  currentPred : List ℕ
  target : List ℕ

/-- Lines 92-93: the saliency map computed on the active rows only;
`feat_ind` pairs one `(j0, j1)` with each active sample, in order. -/
def iterFeatInd (clf : Classifier) (theta : ℚ) (s : BatchState)
    (active : List ℕ) : List (ℕ × ℕ) :=
  active.map (fun i =>
    saliencyMap clf theta (s.batch.getD i []) (s.target.getD i 0) (s.searchSpace.getD i []))

/-- Lines 96-97 as written on the copy produced by `all_feat[active_indices]`:
set both selected coordinates of each row to 1.  (The two numpy statements each
build a fresh copy; since both copies are discarded, collapsing them into one
copy is observationally identical.) -/
def markUsed (rows : List (List Bool)) (featInd : List (ℕ × ℕ)) : List (List Bool) :=
  List.zipWith (fun row (jp : ℕ × ℕ) => (row.set jp.1 true).set jp.2 true) rows featInd

/-- numpy fancy assignment `base[idx] = rows` for integer index array `idx`. -/
def scatterRows (base : List (List ℚ)) (idx : List ℕ) (rows : List (List ℚ)) :
    List (List ℚ) :=
  (List.zip idx rows).foldl (fun b p => b.set p.1 p.2) base

/-- Lines 100-103: the clip extreme toward which the perturbation pushes —
`clip_max` when `theta > 0`, `clip_min` otherwise. -/
def clipValue (theta clipMin clipMax : ℚ) : ℚ :=
  if 0 < theta then clipMax else clipMin

/-- Lines 100-103: the clip function applied to an updated feature —
`np.minimum(clip_max, ·)` when `theta > 0`, `np.maximum(clip_min, ·)` otherwise. -/
def clipApply (theta clipMin clipMax : ℚ) (v : ℚ) : ℚ :=
  if 0 < theta then min clipMax v else max clipMin v

/-- Lines 107-110 for one active row: add `theta` to each of the two selected
features in turn and clip (the second read sees the first write, as in numpy). -/
def perturbRow (theta clipMin clipMax : ℚ) (row : List ℚ) (jp : ℕ × ℕ) : List ℚ :=
  let row1 := row.set jp.1 (clipApply theta clipMin clipMax (row.getD jp.1 0 + theta))
  row1.set jp.2 (clipApply theta clipMin clipMax (row1.getD jp.2 0 + theta))

/-- Line 114 for one row: clear eligibility wherever the row's value has reached
the clip extreme (`search_space[batch == clip_value] = 0`). -/
def updateSearchRow (cv : ℚ) (srow : List Bool) (brow : List ℚ) : List Bool :=
  List.zipWith (fun sv bv => if bv = cv then false else sv) srow brow

/-- One iteration of the `while len(active_indices) != 0` loop of `generate`
(lines 90-122), returning the updated state and the recomputed active index
list.  Lines 96-97 perform `all_feat[active_indices][...] = 1`: advanced
(integer-array) indexing returns a *copy*, the assignment writes into that copy
and the copy is discarded, so `all_feat` itself is unchanged — the embedding
reproduces this numpy semantics faithfully (the marked copy is dead). -/
def jsmaIter (clf : Classifier) (theta gamma clipMin clipMax : ℚ) (F : ℕ)
    (s : BatchState) (active : List ℕ) : BatchState × List ℕ :=
  -- lines 92-93
  let featInd := iterFeatInd clf theta s active
  -- lines 96-97: assignment into the advanced-indexing copy, which is discarded
  let _discardedFeat := markUsed (active.map (fun i => s.allFeat.getD i [])) featInd
  let allFeat' := s.allFeat
  -- lines 106-111: tmp_batch = batch[active_indices] (copy), update both selected
  -- features of each active row, then scatter back with batch[active_indices] = tmp_batch
  let tmpBatch := List.zipWith
      (fun i (jp : ℕ × ℕ) => perturbRow theta clipMin clipMax (s.batch.getD i []) jp)
      active featInd
  let batch' := scatterRows s.batch active tmpBatch
  -- line 114: boolean-mask assignment on search_space itself (all rows)
  let searchSpace' := List.zipWith
      (fun srow brow => updateSearchRow (clipValue theta clipMin clipMax) srow brow)
      s.searchSpace batch'
  -- line 117
  let pred' := batch'.map clf.predict
  -- lines 120-122
  let active' := (List.range batch'.length).filter (fun i =>
    decide (pred'.getD i 0 ≠ s.target.getD i 0) &&
    decide ((countTrue (allFeat'.getD i []) : ℚ) / (F : ℚ) ≤ gamma) &&
    decide (0 < countTrue (searchSpace'.getD i [])))
  (⟨batch', searchSpace', allFeat', pred', s.target⟩, active')

/-- Lines 77-82: `search_space = np.zeros_like(batch)` then boolean-mask set to 1
where `batch < clip_max` (`theta > 0`) or `batch > clip_min` (otherwise). -/
def initSearchSpace (theta clipMin clipMax : ℚ) (chunk : List (List ℚ)) :
    List (List Bool) :=
  chunk.map (fun row =>
    row.map (fun v => if 0 < theta then decide (v < clipMax) else decide (clipMin < v)))

/-- Line 87: the initial active set tests only `current_pred != target`. -/
def initialActive (preds targets : List ℕ) (n : ℕ) : List ℕ :=
  (List.range n).filter (fun i => decide (preds.getD i 0 ≠ targets.getD i 0))

/-- Lines 77-88: fresh per-batch state (search space, zero `all_feat`, initial
active indices) for one chunk of rows with its slices of `preds` and `targets`. -/
def initState (theta clipMin clipMax : ℚ) (chunk : List (List ℚ))
    (preds targets : List ℕ) : BatchState × List ℕ :=
  (⟨chunk, initSearchSpace theta clipMin clipMax chunk,
    chunk.map (fun row => row.map (fun _ => false)), preds, targets⟩,
   initialActive preds targets chunk.length)

/-- One guarded step of the while loop: a no-op once the active set is empty. -/
def jsmaStep (clf : Classifier) (theta gamma clipMin clipMax : ℚ) (F : ℕ)
    (p : BatchState × List ℕ) : BatchState × List ℕ :=
  if p.2 = [] then p else jsmaIter clf theta gamma clipMin clipMax F p.1 p.2

/-- The state after `k` iterations of the while loop. -/
def jsmaSteps (clf : Classifier) (theta gamma clipMin clipMax : ℚ) (F : ℕ) (k : ℕ)
    (p : BatchState × List ℕ) : BatchState × List ℕ :=
  (jsmaStep clf theta gamma clipMin clipMax F)^[k] p

/-- The while loop of lines 90-122, run with explicit fuel (the Python loop has
no iteration cap; every theorem below quantifies over or instantiates `fuel`). -/
def jsmaLoop (clf : Classifier) (theta gamma clipMin clipMax : ℚ) (F : ℕ) :
    ℕ → BatchState × List ℕ → BatchState
  | 0, p => p.1
  | fuel + 1, p =>
      if p.2 = [] then p.1
      else jsmaLoop clf theta gamma clipMin clipMax F fuel
        (jsmaIter clf theta gamma clipMin clipMax F p.1 p.2)

/-- Lines 74-124: process one chunk — initialize state, run the loop, and keep
the resulting rows (`x_adv[batch_index_1:batch_index_2] = batch`). -/
def processBatch (clf : Classifier) (theta gamma clipMin clipMax : ℚ) (F fuel : ℕ)
    (chunk : List (List ℚ)) (preds targets : List ℕ) : List (List ℚ) :=
  (jsmaLoop clf theta gamma clipMin clipMax F fuel
    (initState theta clipMin clipMax chunk preds targets)).batch

/-- Line 72's `for batch_id in range(ceil(N / batch_size))` loop, written as
recursion on the number of remaining batches: each pass handles the next
`batchSize` rows together with the matching slices of `preds` and `targets`. -/
def generateChunks (clf : Classifier) (theta gamma clipMin clipMax : ℚ)
    (F fuel batchSize : ℕ) :
    ℕ → List (List ℚ) → List ℕ → List ℕ → List (List ℚ)
  | 0, _, _, _ => []
  | nb + 1, xs, ps, ts =>
      processBatch clf theta gamma clipMin clipMax F fuel
          (xs.take batchSize) (ps.take batchSize) (ts.take batchSize)
        ++ generateChunks clf theta gamma clipMin clipMax F fuel batchSize nb
            (xs.drop batchSize) (ps.drop batchSize) (ts.drop batchSize)

/-- `SaliencyMapMethod.generate` (lines 36-131) with targets already resolved to
class indices (line 69; the no-`y` path is modelled separately by
`random_targets`): flatten/copy, predict once on the originals, process each
contiguous chunk of `batch_size` rows, and return the perturbed rows.
`F = np.product(x.shape[1:])` is the common row length (line 59). -/
def generate (clf : Classifier) (theta gamma clipMin clipMax : ℚ)
    (batchSize fuel : ℕ) (x : List (List ℚ)) (targets : List ℕ) : List (List ℚ) :=
  let F := (x.headD []).length
  let preds := x.map clf.predict
  generateChunks clf theta gamma clipMin clipMax F fuel batchSize
    ((x.length + batchSize - 1) / batchSize) x preds targets

/-- `SaliencyMapMethod.set_params` (lines 133-153): the base-class call stores
the attribute values (the `Attack` base class is not among the sources; per its
use here it only saves the parameters), then a `ValueError` is raised when
`gamma` lies outside `(0, 1]` (line 147) or, after that, when `batch_size` is
not positive (line 150); otherwise the stored values are kept as given. -/
def set_params (theta gamma : ℚ) (batch_size : ℤ) : Except String (ℚ × ℚ × ℤ) :=
  if gamma ≤ 0 ∨ 1 < gamma then
    Except.error "The total perturbation percentage `gamma` must be between 0 and 1."
  else if batch_size ≤ 0 then
    Except.error "The batch size `batch_size` has to be positive."
  else Except.ok (theta, gamma, batch_size)

/-- Lines 53-55 of `generate`: `self.set_params(**kwargs)` runs first; only when
it succeeds does the method go on to read the clip values, call the classifier
and compute the perturbation. -/
def generateChecked (clf : Classifier) (theta gamma clipMin clipMax : ℚ)
    (batch_size : ℤ) (fuel : ℕ) (x : List (List ℚ)) (targets : List ℕ) :
    Except String (List (List ℚ)) :=
  (set_params theta gamma batch_size).map (fun _ =>
    generate clf theta gamma clipMin clipMax batch_size.toNat fuel x targets)

/-- Modelled from the spec: `art.utils.random_targets` (imported at line 66 of
`generate`) is not among the sources; per the spec it draws, for each sample,
"a target class uniformly from all classes except the classifier's current
top-1 prediction".  The uniform draw is modelled by an arbitrary number `r`:
reducing it modulo `nbClasses - 1` and skipping over the predicted class
enumerates exactly the `nbClasses - 1` incorrect classes. -/
def random_target (nbClasses pred r : ℕ) : ℕ :=
  let k := r % (nbClasses - 1)
  if k < pred then k else k + 1

/-- Modelled from the spec: the no-`y` path of lines 64-67 — one random target
per sample, drawn from that sample's incorrect classes (`rs` supplies the
random draws). -/
def resolveRandomTargets (nbClasses : ℕ) (preds rs : List ℕ) : List ℕ :=
  List.zipWith (fun p r => random_target nbClasses p r) preds rs

/-- `generate` together with the final contents of the caller's array `x`:
line 60 copies `x` into the fresh buffer `x_adv` (`np.reshape(np.copy(x), ...)`),
and every subsequent write (lines 107-111, 114, 124) targets `x_adv`, `batch`
(a basic-slice view of `x_adv`) or per-batch temporaries, never `x`; the `x`
buffer is therefore threaded through unchanged and returned alongside the
adversarial rows. -/
def generateFull (clf : Classifier) (theta gamma clipMin clipMax : ℚ)
    (batchSize fuel : ℕ) (x : List (List ℚ)) (targets : List ℕ) :
    List (List ℚ) × List (List ℚ) :=
  let xBuffer := x
  let xAdv := generate clf theta gamma clipMin clipMax batchSize fuel x targets
  (xBuffer, xAdv)

/-- Concrete two-class classifier for the scenario theorems: always predicts
class 0 and has constant target-class gradients `[4, 3, 2, 1]` over `F = 4`
features, so a sample targeted at class 1 never reaches its target. -/
def clfC : Classifier := ⟨2, fun _ => 0, fun _ _ => [4, 3, 2, 1]⟩

section ConcreteScenarios

attribute [local semireducible] Rat.mul Rat.inv Rat.add Rat.sub

/-- C1: refuted on the code (code bug).  Concrete scenario: one sample
`[0,0,0,0]`, `theta = 3/10`, `gamma = 1/4`, clip values `[0,1]`, target-class
gradients `[4,3,2,1]`, prediction `0`, target `1`.  The first loop iteration
selects features 0 and 1 (`feat_ind = [(0,1)]`) and perturbs both to `3/10`,
yet after the iteration the used-feature mask `all_feat` still records no
feature: lines 96-97 assign into the temporary copy produced by the advanced
indexing `all_feat[active_indices]`, and the update is silently lost, so the
mask entries for the two selected features are `0`, not `1`. -/
theorem C1_used_features_never_recorded :
    iterFeatInd clfC (3/10) (initState (3/10) 0 1 [[0,0,0,0]] [0] [1]).1 [0] = [(0, 1)] ∧
    (jsmaIter clfC (3/10) (1/4) 0 1 4
        (initState (3/10) 0 1 [[0,0,0,0]] [0] [1]).1 [0]).1.batch = [[3/10, 3/10, 0, 0]] ∧
    (jsmaIter clfC (3/10) (1/4) 0 1 4
        (initState (3/10) 0 1 [[0,0,0,0]] [0] [1]).1 [0]).1.allFeat
      = [[false, false, false, false]] := by decide

/-- C2: refuted on the code (code bug).  Same scenario as the spec's
`gamma = 0.25`, `F = 4` scenario: after one iteration two features (0 and 1)
have been modified, so the true modified fraction is `1/2 > 1/4` and the claim
requires the sample to leave the active set; but because the lines 96-97 update
of `all_feat` is lost (advanced-indexing copy), the recorded used-feature count
is still `0`, the budget test `0/4 ≤ 1/4` passes, and the recomputed active set
is still `[0]` — the sample does not exit. -/
theorem C2_sample_survives_budget :
    (jsmaIter clfC (3/10) (1/4) 0 1 4
        (initState (3/10) 0 1 [[0,0,0,0]] [0] [1]).1 [0]).1.batch = [[3/10, 3/10, 0, 0]] ∧
    (jsmaIter clfC (3/10) (1/4) 0 1 4
        (initState (3/10) 0 1 [[0,0,0,0]] [0] [1]).1 [0]).2 = [0] := by decide

/-- C3: the claim is refuted as stated.  Concrete scenario: one sample with all
features at `clip_max = 1`, `theta = 3/10 > 0`, prediction `0`, target `1`.
Its initial search space is indeed empty (`countTrue = 0`), but the initial
active set of line 87 tests only `current_pred != target`, so the sample IS in
the initial active set (`[0]`, not `[]`) and the loop body does run for it. -/
theorem C3_saturated_sample_in_initial_active_set :
    countTrue ((initState (3/10) 0 1 [[1,1,1,1]] [0] [1]).1.searchSpace.getD 0 []) = 0 ∧
    (initState (3/10) 0 1 [[1,1,1,1]] [0] [1]).2 = [0] := by decide

/-- C4: refuted on the code (code bug).  With `F = 4` and `gamma = 1/4` the
claimed bound is `ceil(F * gamma / 2) = 1` active iteration per sample.
Concrete scenario (`theta = 1/10`, clip `[0,1]`, start `[0,0,0,0]`, gradients
`[4,3,2,1]`, prediction never equals target): the sample is still active after
1 and after 2 iterations — it stays active for 20 iterations (only leaving when
its whole search space saturates), because the `all_feat` budget bookkeeping of
lines 96-97 is lost and the gamma budget never removes it. -/
theorem C4_iteration_bound_violated :
    (⌈((4 : ℚ) * (1/4) / 2)⌉ = 1) ∧
    (jsmaSteps clfC (1/10) (1/4) 0 1 4 1 (initState (1/10) 0 1 [[0,0,0,0]] [0] [1])).2
      = [0] ∧
    (jsmaSteps clfC (1/10) (1/4) 0 1 4 2 (initState (1/10) 0 1 [[0,0,0,0]] [0] [1])).2
      = [0] ∧
    (jsmaSteps clfC (1/10) (1/4) 0 1 4 20 (initState (1/10) 0 1 [[0,0,0,0]] [0] [1])).2
      = [] := by
  refine ⟨by norm_num [Int.ceil_eq_iff], by decide, by decide, by decide⟩

end ConcreteScenarios

theorem countTrue_cons (x : Bool) (l : List Bool) :
    countTrue (x :: l) = (if x then 1 else 0) + countTrue l := by
  cases x <;> simp [countTrue, List.filter_cons, Nat.add_comm]

/-- `getD` of a `zipWith` at an in-range index is the pointwise image. -/
theorem getD_zipWith {α β γ : Type} (f : α → β → γ) (as : List α) (bs : List β)
    (i : ℕ) (d : γ) (da : α) (db : β) (ha : i < as.length) (hb : i < bs.length) :
    (List.zipWith f as bs).getD i d = f (as.getD i da) (bs.getD i db) := by
  have hlen : i < (List.zipWith f as bs).length := by
    rw [List.length_zipWith]; omega
  rw [List.getD_eq_getElem _ _ hlen, List.getD_eq_getElem _ _ ha,
    List.getD_eq_getElem _ _ hb, List.getElem_zipWith]

/-- `getD` of a `zipWith`: the default (out of range) or the pointwise image. -/
theorem getD_zipWith_or {α β γ : Type} (f : α → β → γ) (as : List α) (bs : List β)
    (i : ℕ) (d : γ) (da : α) (db : β) :
    (List.zipWith f as bs).getD i d = d ∨
    (List.zipWith f as bs).getD i d = f (as.getD i da) (bs.getD i db) := by
  by_cases h : i < (List.zipWith f as bs).length
  · right
    rw [List.length_zipWith] at h
    exact getD_zipWith f as bs i d da db (by omega) (by omega)
  · left; exact List.getD_eq_default _ _ (Nat.le_of_not_lt h)

/-- Clearing saturated features (line 114) can only turn entries of the
eligibility row from `true` to `false`, never the other way around. -/
theorem updateSearchRow_true_of (cv : ℚ) (srow : List Bool) (brow : List ℚ) (j : ℕ)
    (h : (updateSearchRow cv srow brow).getD j false = true) :
    srow.getD j false = true := by
  induction srow generalizing brow j with
  | nil => simp [updateSearchRow] at h
  | cons s ss ih =>
    cases brow with
    | nil => simp [updateSearchRow] at h
    | cons b bs =>
      cases j with
      | zero =>
        simp only [updateSearchRow, List.zipWith_cons_cons, List.getD_cons_zero] at h ⊢
        by_cases hb : b = cv
        · simp [hb] at h
        · simpa [hb] using h
      | succ j' =>
        simp only [updateSearchRow, List.zipWith_cons_cons, List.getD_cons_succ] at h ⊢
        exact ih bs j' h

/-- Line 114 never increases the number of eligible features of a row. -/
theorem countTrue_updateSearchRow_le (cv : ℚ) (srow : List Bool) (brow : List ℚ) :
    countTrue (updateSearchRow cv srow brow) ≤ countTrue srow := by
  induction srow generalizing brow with
  | nil => simp [updateSearchRow]
  | cons s ss ih =>
    cases brow with
    | nil => simp [updateSearchRow, countTrue]
    | cons b bs =>
      simp only [updateSearchRow, List.zipWith_cons_cons] at *
      rw [countTrue_cons, countTrue_cons]
      have h1 : (if (if b = cv then false else s) then 1 else 0) ≤ (if s then 1 else 0) := by
        by_cases hb : b = cv <;> by_cases hs : s <;> simp [hb, hs]
      exact Nat.add_le_add h1 (ih bs)

/-- One `jsmaIter` only ever clears eligibility entries. -/
theorem jsmaIter_searchSpace_true (clf : Classifier) (theta gamma clipMin clipMax : ℚ)
    (F : ℕ) (s : BatchState) (active : List ℕ) (i j : ℕ)
    (h : (((jsmaIter clf theta gamma clipMin clipMax F s active).1.searchSpace.getD i []).getD
        j false) = true) :
    (s.searchSpace.getD i []).getD j false = true := by
  simp only [jsmaIter] at h
  rcases getD_zipWith_or
      (fun srow brow => updateSearchRow (clipValue theta clipMin clipMax) srow brow)
      s.searchSpace _ i [] [] [] with hz | hz
  · rw [hz] at h
    simp at h
  · rw [hz] at h
    exact updateSearchRow_true_of _ _ _ _ h

/-- One `jsmaIter` never increases a row's eligible-feature count. -/
theorem jsmaIter_searchSpace_count (clf : Classifier) (theta gamma clipMin clipMax : ℚ)
    (F : ℕ) (s : BatchState) (active : List ℕ) (i : ℕ) :
    countTrue ((jsmaIter clf theta gamma clipMin clipMax F s active).1.searchSpace.getD i [])
      ≤ countTrue (s.searchSpace.getD i []) := by
  simp only [jsmaIter]
  rcases getD_zipWith_or
      (fun srow brow => updateSearchRow (clipValue theta clipMin clipMax) srow brow)
      s.searchSpace _ i [] [] [] with hz | hz
  · rw [hz]; simp [countTrue]
  · rw [hz]
    exact countTrue_updateSearchRow_le _ _ _

/-- One guarded loop step only ever clears eligibility entries. -/
theorem jsmaStep_searchSpace_true (clf : Classifier) (theta gamma clipMin clipMax : ℚ)
    (F : ℕ) (p : BatchState × List ℕ) (i j : ℕ)
    (h : (((jsmaStep clf theta gamma clipMin clipMax F p).1.searchSpace.getD i []).getD
        j false) = true) :
    (p.1.searchSpace.getD i []).getD j false = true := by
  rw [jsmaStep] at h
  by_cases hp : p.2 = []
  · rwa [if_pos hp] at h
  · rw [if_neg hp] at h
    exact jsmaIter_searchSpace_true _ _ _ _ _ _ _ _ _ _ h

/-- One guarded loop step never increases a row's eligible-feature count. -/
theorem jsmaStep_searchSpace_count (clf : Classifier) (theta gamma clipMin clipMax : ℚ)
    (F : ℕ) (p : BatchState × List ℕ) (i : ℕ) :
    countTrue ((jsmaStep clf theta gamma clipMin clipMax F p).1.searchSpace.getD i [])
      ≤ countTrue (p.1.searchSpace.getD i []) := by
  rw [jsmaStep]
  by_cases hp : p.2 = []
  · rw [if_pos hp]
  · rw [if_neg hp]
    exact jsmaIter_searchSpace_count _ _ _ _ _ _ _ _ _

/-- C3, amended: a sample whose search space is empty is NOT excluded from the
initial active set — line 87 tests only `current_pred != target` — but once the
loop body runs, the recomputed active set (line 122) requires a nonempty search
space, and the search space only shrinks, so such a sample is dropped after the
single iteration it participates in; the loop guard, not the initialization,
prevents the infinite loop (and no division by zero arises). -/
theorem C3_empty_search_space_excluded (clf : Classifier)
    (theta gamma clipMin clipMax : ℚ) (F : ℕ) (s : BatchState) (active : List ℕ)
    (preds targets : List ℕ) (n i : ℕ)
    (hempty : countTrue (s.searchSpace.getD i []) = 0) :
    (i ∈ initialActive preds targets n ↔ (i < n ∧ preds.getD i 0 ≠ targets.getD i 0)) ∧
    i ∉ (jsmaIter clf theta gamma clipMin clipMax F s active).2 := by
  constructor
  · simp [initialActive, List.mem_filter, List.mem_range, and_comm]
  · intro hmem
    simp only [jsmaIter, List.mem_filter] at hmem
    obtain ⟨-, hcond⟩ := hmem
    rw [Bool.and_eq_true, Bool.and_eq_true] at hcond
    obtain ⟨⟨-, -⟩, hc⟩ := hcond
    rw [decide_eq_true_eq] at hc
    rcases getD_zipWith_or
        (fun srow brow => updateSearchRow (clipValue theta clipMin clipMax) srow brow)
        s.searchSpace _ i [] [] [] with h | h
    · rw [h] at hc
      simp [countTrue] at hc
    · rw [h] at hc
      have hle := lt_of_lt_of_le hc (countTrue_updateSearchRow_le _ _ _)
      omega

/-- C7: the search-space eligibility mask is pointwise monotone non-increasing
across loop iterations — an entry that is `true` (eligible) after `k+1`
iterations was already `true` after `k` iterations, i.e. a cleared feature is
never reset — and consequently the per-sample eligible-feature count never
increases from one iteration to the next. -/
theorem C7_search_space_monotone (clf : Classifier) (theta gamma clipMin clipMax : ℚ)
    (F : ℕ) (p : BatchState × List ℕ) (k i j : ℕ) :
    ((((jsmaSteps clf theta gamma clipMin clipMax F (k+1) p).1.searchSpace.getD i []).getD
        j false = true) →
      (((jsmaSteps clf theta gamma clipMin clipMax F k p).1.searchSpace.getD i []).getD
        j false = true)) ∧
    countTrue ((jsmaSteps clf theta gamma clipMin clipMax F (k+1) p).1.searchSpace.getD i [])
      ≤ countTrue ((jsmaSteps clf theta gamma clipMin clipMax F k p).1.searchSpace.getD i []) := by
  have hs : jsmaSteps clf theta gamma clipMin clipMax F (k+1) p
      = jsmaStep clf theta gamma clipMin clipMax F
          (jsmaSteps clf theta gamma clipMin clipMax F k p) := by
    simp only [jsmaSteps]
    exact Function.iterate_succ_apply' _ k p
  rw [hs]
  exact ⟨jsmaStep_searchSpace_true _ _ _ _ _ _ _ _ _,
    jsmaStep_searchSpace_count _ _ _ _ _ _ _ _⟩

section ConcreteWitnesses

attribute [local semireducible] Rat.mul Rat.inv Rat.add Rat.sub

/-- Witness for `C3_empty_search_space_excluded` at the saturated-sample
scenario: the hypothesis (empty search space) holds there and both conclusions
are realized at sample index 0. -/
theorem C3_empty_search_space_excluded_witness :
    (0 ∈ initialActive [0] [1] 1 ↔ (0 < 1 ∧ ([0] : List ℕ).getD 0 0 ≠ ([1] : List ℕ).getD 0 0)) ∧
    0 ∉ (jsmaIter clfC (3/10) (1/4) 0 1 4
        (initState (3/10) 0 1 [[1,1,1,1]] [0] [1]).1 [0]).2 :=
  C3_empty_search_space_excluded clfC (3/10) (1/4) 0 1 4
    (initState (3/10) 0 1 [[1,1,1,1]] [0] [1]).1 [0] [0] [1] 1 0 (by decide)

/-- Witness for `C7_search_space_monotone` at the `theta = 1/10` scenario,
`k = 0`, sample 0, feature 2: the feature is still eligible after one
iteration, hence eligible at initialization, and the count shrinks or stays. -/
theorem C7_search_space_monotone_witness :
    ((jsmaSteps clfC (1/10) (1/4) 0 1 4 0
        (initState (1/10) 0 1 [[0,0,0,0]] [0] [1])).1.searchSpace.getD 0 []).getD 2 false
      = true ∧
    countTrue ((jsmaSteps clfC (1/10) (1/4) 0 1 4 1
        (initState (1/10) 0 1 [[0,0,0,0]] [0] [1])).1.searchSpace.getD 0 [])
      ≤ countTrue ((jsmaSteps clfC (1/10) (1/4) 0 1 4 0
        (initState (1/10) 0 1 [[0,0,0,0]] [0] [1])).1.searchSpace.getD 0 []) :=
  ⟨(C7_search_space_monotone clfC (1/10) (1/4) 0 1 4
      (initState (1/10) 0 1 [[0,0,0,0]] [0] [1]) 0 0 2).1 (by decide),
   (C7_search_space_monotone clfC (1/10) (1/4) 0 1 4
      (initState (1/10) 0 1 [[0,0,0,0]] [0] [1]) 0 0 2).2⟩

end ConcreteWitnesses

/-- `random_target` never returns the predicted class and stays in range. -/
theorem random_target_ne_pred (nbClasses pred r : ℕ) (h2 : 2 ≤ nbClasses)
    (hp : pred < nbClasses) :
    random_target nbClasses pred r ≠ pred ∧ random_target nbClasses pred r < nbClasses := by
  have hk : r % (nbClasses - 1) < nbClasses - 1 := Nat.mod_lt _ (by omega)
  rw [random_target]
  by_cases h : r % (nbClasses - 1) < pred
  · rw [if_pos h]
    omega
  · rw [if_neg h]
    omega

/-- C8: when `generate` is called without targets, every sample's resolved
target class differs from that sample's original top-1 prediction (and is a
valid class index); the draw skips the predicted class by construction.
(The target resolution `random_targets` lives in `art/utils.py`, outside the
sources; it is modelled from the spec by `resolveRandomTargets`.) -/
theorem C8_random_target_excludes_prediction (clf : Classifier) (x : List (List ℚ))
    (rs : List ℕ) (i : ℕ) (h2 : 2 ≤ clf.nbClasses)
    (hp : ∀ s, clf.predict s < clf.nbClasses) (hi : i < x.length) (hr : i < rs.length) :
    (resolveRandomTargets clf.nbClasses (x.map clf.predict) rs).getD i 0
        ≠ (x.map clf.predict).getD i 0 ∧
    (resolveRandomTargets clf.nbClasses (x.map clf.predict) rs).getD i 0 < clf.nbClasses := by
  have hplen : i < (x.map clf.predict).length := by simpa using hi
  rw [resolveRandomTargets, getD_zipWith _ _ _ i 0 0 0 hplen hr]
  have hpred : (x.map clf.predict).getD i 0 < clf.nbClasses := by
    rw [List.getD_eq_getElem _ _ hplen, List.getElem_map]
    exact hp _
  exact random_target_ne_pred _ _ _ h2 hpred

/-- Witness for `C8_random_target_excludes_prediction`: with the concrete
two-class classifier, one sample and random draw 5, the resolved target
differs from the prediction. -/
theorem C8_random_target_excludes_prediction_witness :
    (resolveRandomTargets clfC.nbClasses ([[0,0,0,0]].map clfC.predict) [5]).getD 0 0
        ≠ ([[(0:ℚ),0,0,0]].map clfC.predict).getD 0 0 ∧
    (resolveRandomTargets clfC.nbClasses ([[0,0,0,0]].map clfC.predict) [5]).getD 0 0
        < clfC.nbClasses :=
  C8_random_target_excludes_prediction clfC [[0,0,0,0]] [5] 0 (by decide)
    (fun _ => Nat.zero_lt_two) (by decide) (by decide)

/-- C9: `set_params` (called by the constructor and at the start of `generate`)
fails with a `ValueError` exactly when `gamma` lies outside `(0, 1]` or
`batch_size` is not positive; on success the parameters are stored unchanged
(no silent clamping); and on failure `generate` returns the error before
consulting the classifier or the data — its result is independent of the
classifier, the clip values, the inputs and the targets. -/
theorem C9_set_params_validation (theta gamma : ℚ) (bs : ℤ) :
    ((∃ msg, set_params theta gamma bs = Except.error msg) ↔
      (gamma ≤ 0 ∨ 1 < gamma ∨ bs ≤ 0)) ∧
    (∀ p, set_params theta gamma bs = Except.ok p → p = (theta, gamma, bs)) ∧
    ((gamma ≤ 0 ∨ 1 < gamma ∨ bs ≤ 0) →
      ∀ clf clf' : Classifier, ∀ clipMin clipMax clipMin' clipMax' : ℚ,
        ∀ fuel fuel' : ℕ, ∀ x x' : List (List ℚ), ∀ t t' : List ℕ,
        generateChecked clf theta gamma clipMin clipMax bs fuel x t
          = generateChecked clf' theta gamma clipMin' clipMax' bs fuel' x' t') := by
  refine ⟨?_, ?_, ?_⟩
  · constructor
    · rintro ⟨msg, hmsg⟩
      rw [set_params] at hmsg
      by_cases h1 : gamma ≤ 0 ∨ 1 < gamma
      · tauto
      · rw [if_neg h1] at hmsg
        by_cases h2 : bs ≤ 0
        · tauto
        · rw [if_neg h2] at hmsg
          exact absurd hmsg (by simp)
    · intro h
      rw [set_params]
      by_cases h1 : gamma ≤ 0 ∨ 1 < gamma
      · rw [if_pos h1]
        exact ⟨_, rfl⟩
      · have h2 : bs ≤ 0 := by tauto
        rw [if_neg h1, if_pos h2]
        exact ⟨_, rfl⟩
  · intro p hp
    rw [set_params] at hp
    by_cases h1 : gamma ≤ 0 ∨ 1 < gamma
    · rw [if_pos h1] at hp; exact absurd hp (by simp)
    · rw [if_neg h1] at hp
      by_cases h2 : bs ≤ 0
      · rw [if_pos h2] at hp; exact absurd hp (by simp)
      · rw [if_neg h2] at hp
        simpa using hp.symm
  · intro h clf clf' clipMin clipMax clipMin' clipMax' fuel fuel' x x' t t'
    simp only [generateChecked, set_params]
    by_cases h1 : gamma ≤ 0 ∨ 1 < gamma
    · rw [if_pos h1]; rfl
    · have h2 : bs ≤ 0 := by tauto
      rw [if_neg h1, if_pos h2]; rfl

/-- Witness for `C9_set_params_validation`: `gamma = 2 > 1` is rejected with an
error, and a valid configuration is stored unchanged. -/
theorem C9_set_params_validation_witness :
    (∃ msg, set_params 1 2 1 = Except.error msg) ∧
    (∀ p, set_params 1 1 3 = Except.ok p → p = (1, 1, 3)) :=
  ⟨(C9_set_params_validation 1 2 1).1.mpr (Or.inr (Or.inl one_lt_two)),
   (C9_set_params_validation 1 1 3).2.1⟩

theorem fq_le_fq {a b : ℚ} : fq a ≤ fq b ↔ a ≤ b := by
  rw [fq, fq, WithBot.coe_le_coe, WithTop.coe_le_coe]

theorem bot_lt_fq (q : ℚ) : (⊥ : XQ) < fq q := WithBot.bot_lt_coe _

theorem xneg_fq (q : ℚ) : xneg (fq q) = fq (-q) := rfl

theorem xneg_top : xneg (((⊤ : WithTop ℚ) : XQ)) = (⊥ : XQ) := rfl

theorem bestIdx_mem (m : List XQ) (cand : List ℕ) (h : cand ≠ []) : bestIdx m cand ∈ cand := by
  induction cand with
  | nil => exact absurd rfl h
  | cons c rest ih =>
    cases rest with
    | nil => simp [bestIdx]
    | cons c' cs =>
      rw [bestIdx]
      by_cases hlt : m.getD c ⊥ < m.getD (bestIdx m (c' :: cs)) ⊥
      · rw [if_pos hlt]
        exact List.mem_cons_of_mem _ (ih (by simp))
      · rw [if_neg hlt]
        exact List.mem_cons_self _ _

theorem bestIdx_le (m : List XQ) (cand : List ℕ) (k : ℕ) (hk : k ∈ cand) :
    m.getD k ⊥ ≤ m.getD (bestIdx m cand) ⊥ := by
  induction cand with
  | nil => cases hk
  | cons c rest ih =>
    cases rest with
    | nil =>
      rw [List.mem_singleton] at hk
      subst hk
      simp [bestIdx]
    | cons c' cs =>
      rw [bestIdx]
      rcases List.mem_cons.mp hk with hkc | hkrest
      · subst hkc
        by_cases hlt : m.getD k ⊥ < m.getD (bestIdx m (c' :: cs)) ⊥
        · rw [if_pos hlt]; exact le_of_lt hlt
        · rw [if_neg hlt]
      · have hle := ih hkrest
        by_cases hlt : m.getD c ⊥ < m.getD (bestIdx m (c' :: cs)) ⊥
        · rw [if_pos hlt]; exact hle
        · rw [if_neg hlt]; exact le_trans hle (le_of_not_lt hlt)

theorem top2_mask_spec (g : List ℚ) (srow : List Bool) (m : List XQ)
    (hmlen : m.length = srow.length)
    (hel : ∀ k, k < srow.length → srow.getD k false = true → m.getD k ⊥ = fq (g.getD k 0))
    (hin : ∀ k, k < srow.length → srow.getD k false = false → m.getD k ⊥ = ⊥)
    (i j : ℕ) (hij : i ≠ j) (hi : i < srow.length) (hj : j < srow.length)
    (hie : srow.getD i false = true) (hje : srow.getD j false = true) :
    (top2 m).1 ≠ (top2 m).2 ∧
    (top2 m).1 < srow.length ∧ (top2 m).2 < srow.length ∧
    srow.getD (top2 m).1 false = true ∧ srow.getD (top2 m).2 false = true ∧
    (∀ k, k < srow.length → srow.getD k false = true → k ≠ (top2 m).1 → k ≠ (top2 m).2 →
      g.getD k 0 ≤ g.getD (top2 m).1 0 ∧ g.getD k 0 ≤ g.getD (top2 m).2 0) := by
  have hL : 2 ≤ m.length := by omega
  have hrange : (List.range m.length) ≠ [] := by
    simp only [ne_eq, List.range_eq_nil]
    omega
  set j0 := bestIdx m (List.range m.length) with hj0def
  set cand1 := (List.range m.length).filter (fun k => k ≠ j0) with hcand1def
  set j1 := bestIdx m cand1 with hj1def
  have htop2 : top2 m = (j0, j1) := rfl
  have hj0mem : j0 ∈ List.range m.length := bestIdx_mem m _ hrange
  have hj0lt : j0 < m.length := List.mem_range.mp hj0mem
  have hj0max : ∀ k, k < m.length → m.getD k ⊥ ≤ m.getD j0 ⊥ := fun k hk =>
    bestIdx_le m _ k (List.mem_range.mpr hk)
  -- an entry strictly above ⊥ is eligible
  have helig : ∀ k, k < srow.length → (⊥ : XQ) < m.getD k ⊥ → srow.getD k false = true := by
    intro k hk hbot
    cases hsk : srow.getD k false with
    | true => rfl
    | false =>
      rw [hin k hk hsk] at hbot
      exact absurd hbot (lt_irrefl _)
  have hmi : m.getD i ⊥ = fq (g.getD i 0) := hel i hi hie
  have hmj : m.getD j ⊥ = fq (g.getD j 0) := hel j hj hje
  have hj0bot : (⊥ : XQ) < m.getD j0 ⊥ := by
    refine lt_of_lt_of_le ?_ (hj0max i (by omega))
    rw [hmi]; exact bot_lt_fq _
  have hj0elig : srow.getD j0 false = true := helig j0 (by omega) hj0bot
  -- a candidate different from j0
  have hk0 : ∃ k0, k0 < m.length ∧ k0 ≠ j0 ∧ srow.getD k0 false = true ∧
      m.getD k0 ⊥ = fq (g.getD k0 0) := by
    by_cases hi0 : i = j0
    · exact ⟨j, by omega, by omega, hje, hmj⟩
    · exact ⟨i, by omega, hi0, hie, hmi⟩
  obtain ⟨k0, hk0lt, hk0ne, hk0e, hmk0⟩ := hk0
  have hk0mem : k0 ∈ cand1 := by
    rw [hcand1def, List.mem_filter]
    exact ⟨List.mem_range.mpr hk0lt, by simpa using hk0ne⟩
  have hcand1ne : cand1 ≠ [] := List.ne_nil_of_mem hk0mem
  have hj1mem : j1 ∈ cand1 := bestIdx_mem m _ hcand1ne
  have hj1range : j1 < m.length ∧ j1 ≠ j0 := by
    rw [hcand1def, List.mem_filter] at hj1mem
    refine ⟨List.mem_range.mp hj1mem.1, by simpa using hj1mem.2⟩
  have hj1max : ∀ k, k < m.length → k ≠ j0 → m.getD k ⊥ ≤ m.getD j1 ⊥ := by
    intro k hk hkne
    refine bestIdx_le m _ k ?_
    rw [hcand1def, List.mem_filter]
    exact ⟨List.mem_range.mpr hk, by simpa using hkne⟩
  have hj1bot : (⊥ : XQ) < m.getD j1 ⊥ := by
    refine lt_of_lt_of_le ?_ (hj1max k0 hk0lt hk0ne)
    rw [hmk0]; exact bot_lt_fq _
  have hj1elig : srow.getD j1 false = true := helig j1 (by omega) hj1bot
  rw [htop2]
  refine ⟨Ne.symm hj1range.2, by omega, by omega, hj0elig, hj1elig, ?_⟩
  intro k hk hke hkj0 hkj1
  have hmk : m.getD k ⊥ = fq (g.getD k 0) := hel k hk hke
  have hmj0 : m.getD j0 ⊥ = fq (g.getD j0 0) := hel j0 (by omega) hj0elig
  have hmj1 : m.getD j1 ⊥ = fq (g.getD j1 0) := hel j1 (by omega) hj1elig
  constructor
  · have := hj0max k (by omega)
    rw [hmk, hmj0] at this
    exact fq_le_fq.mp this
  · have := hj1max k (by omega) hkj0
    rw [hmk, hmj1] at this
    exact fq_le_fq.mp this

theorem maskGrads_length (theta : ℚ) (g : List ℚ) (srow : List Bool)
    (hlen : g.length = srow.length) : (maskGrads theta g srow).length = srow.length := by
  rw [maskGrads, List.length_zipWith, hlen, Nat.min_self]

theorem maskGrads_getD (theta : ℚ) (g : List ℚ) (srow : List Bool) (k : ℕ)
    (hg : k < g.length) (hs : k < srow.length) :
    (maskGrads theta g srow).getD k ⊥
      = if srow.getD k false then fq (g.getD k 0)
        else (if 0 < theta then (⊥ : XQ) else ((⊤ : WithTop ℚ) : XQ)) := by
  rw [maskGrads, getD_zipWith _ _ _ k ⊥ 0 false hg hs]

theorem getD_map_xneg (m : List XQ) (k : ℕ) (hk : k < m.length) :
    (m.map xneg).getD k ⊥ = xneg (m.getD k ⊥) := by
  rw [List.getD_eq_getElem _ _ (by simpa using hk), List.getD_eq_getElem _ _ hk,
    List.getElem_map]

theorem getD_map_neg (g : List ℚ) (k : ℕ) (hk : k < g.length) :
    (g.map (fun v => -v)).getD k 0 = -(g.getD k 0) := by
  rw [List.getD_eq_getElem _ _ (by simpa using hk), List.getD_eq_getElem _ _ hk,
    List.getElem_map]

/-- C5: `_saliency_map` forces the gradients of ineligible features to `-inf`
when `theta > 0` and to `+inf` otherwise (fourth conjunct), and returns two
distinct feature indices that are both eligible whenever at least two eligible
features remain (here witnessed by two distinct eligible indices `i ≠ j`);
the selected pair carries the two highest gradients among the eligible features
when `theta > 0` and the two lowest when `theta < 0` (the code's branch is on
`theta > 0`, so the "else" branch covers all `theta ≤ 0`). -/
theorem C5_saliency_selects_top2_eligible (clf : Classifier) (theta : ℚ) (x : List ℚ) (t : ℕ) (srow : List Bool)
    (hlen : (clf.classGradient x t).length = srow.length)
    (i j : ℕ) (hij : i ≠ j) (hi : i < srow.length) (hj : j < srow.length)
    (hie : srow.getD i false = true) (hje : srow.getD j false = true) :
    (saliencyMap clf theta x t srow).1 ≠ (saliencyMap clf theta x t srow).2 ∧
    srow.getD (saliencyMap clf theta x t srow).1 false = true ∧
    srow.getD (saliencyMap clf theta x t srow).2 false = true ∧
    (∀ k, k < srow.length → srow.getD k false = false →
      (maskGrads theta (clf.classGradient x t) srow).getD k ⊥
        = (if 0 < theta then (⊥ : XQ) else ((⊤ : WithTop ℚ) : XQ))) ∧
    (0 < theta → ∀ k, k < srow.length → srow.getD k false = true →
      k ≠ (saliencyMap clf theta x t srow).1 → k ≠ (saliencyMap clf theta x t srow).2 →
      (clf.classGradient x t).getD k 0 ≤ (clf.classGradient x t).getD
          (saliencyMap clf theta x t srow).1 0 ∧
      (clf.classGradient x t).getD k 0 ≤ (clf.classGradient x t).getD
          (saliencyMap clf theta x t srow).2 0) ∧
    (¬ 0 < theta → ∀ k, k < srow.length → srow.getD k false = true →
      k ≠ (saliencyMap clf theta x t srow).1 → k ≠ (saliencyMap clf theta x t srow).2 →
      (clf.classGradient x t).getD (saliencyMap clf theta x t srow).1 0
          ≤ (clf.classGradient x t).getD k 0 ∧
      (clf.classGradient x t).getD (saliencyMap clf theta x t srow).2 0
          ≤ (clf.classGradient x t).getD k 0) := by
  set g := clf.classGradient x t with hgdef
  have hforce : ∀ k, k < srow.length → srow.getD k false = false →
      (maskGrads theta g srow).getD k ⊥
        = (if 0 < theta then (⊥ : XQ) else ((⊤ : WithTop ℚ) : XQ)) := by
    intro k hk hsk
    rw [maskGrads_getD theta g srow k (by omega) hk, hsk]
    simp
  by_cases ht : 0 < theta
  · -- positive theta: saliencyMap = top2 (maskGrads theta g srow)
    have hsal : saliencyMap clf theta x t srow = top2 (maskGrads theta g srow) := by
      rw [saliencyMap, if_pos ht]
    have hspec := top2_mask_spec g srow (maskGrads theta g srow)
      (maskGrads_length theta g srow hlen)
      (fun k hk hsk => by rw [maskGrads_getD theta g srow k (by omega) hk, hsk]; simp)
      (fun k hk hsk => by rw [maskGrads_getD theta g srow k (by omega) hk, hsk, if_pos ht]; simp)
      i j hij hi hj hie hje
    rw [hsal]
    refine ⟨hspec.1, hspec.2.2.2.1, hspec.2.2.2.2.1, hforce, ?_, fun h => absurd ht h⟩
    intro _ k hk hsk hk1 hk2
    exact hspec.2.2.2.2.2 k hk hsk hk1 hk2
  · -- non-positive theta: saliencyMap = top2 (map xneg (maskGrads theta g srow))
    have hsal : saliencyMap clf theta x t srow
        = top2 ((maskGrads theta g srow).map xneg) := by
      rw [saliencyMap, if_neg ht]
    have hmlen : ((maskGrads theta g srow).map xneg).length = srow.length := by
      rw [List.length_map, maskGrads_length theta g srow hlen]
    have hel : ∀ k, k < srow.length → srow.getD k false = true →
        ((maskGrads theta g srow).map xneg).getD k ⊥
          = fq ((g.map (fun v => -v)).getD k 0) := by
      intro k hk hsk
      rw [getD_map_xneg _ k (by rw [maskGrads_length theta g srow hlen]; omega),
        maskGrads_getD theta g srow k (by omega) hk, hsk, if_pos rfl, xneg_fq,
        getD_map_neg g k (by omega)]
    have hin : ∀ k, k < srow.length → srow.getD k false = false →
        ((maskGrads theta g srow).map xneg).getD k ⊥ = ⊥ := by
      intro k hk hsk
      rw [getD_map_xneg _ k (by rw [maskGrads_length theta g srow hlen]; omega),
        maskGrads_getD theta g srow k (by omega) hk, hsk]
      simp only [Bool.false_eq_true, if_false, if_neg ht]
      exact xneg_top
    have hspec := top2_mask_spec (g.map (fun v => -v)) srow
      ((maskGrads theta g srow).map xneg) hmlen hel hin i j hij hi hj hie hje
    rw [hsal]
    refine ⟨hspec.1, hspec.2.2.2.1, hspec.2.2.2.2.1, hforce, fun h => absurd h ht, ?_⟩
    intro _ k hk hsk hk1 hk2
    have h' := hspec.2.2.2.2.2 k hk hsk hk1 hk2
    rw [getD_map_neg g k (by omega),
      getD_map_neg g ((top2 ((maskGrads theta g srow).map xneg)).1)
        (by omega),
      getD_map_neg g ((top2 ((maskGrads theta g srow).map xneg)).2)
        (by omega)] at h'
    constructor
    · linarith [h'.1]
    · linarith [h'.2]

/-- Witness for `C5_saliency_selects_top2_eligible`: with constant gradients
`[4,3,2,1]`, all four features eligible and `theta = 1 > 0`, the two selected
features are distinct and eligible. -/
theorem C5_saliency_selects_top2_eligible_witness :
    (saliencyMap clfC 1 [0,0,0,0] 1 [true,true,true,true]).1
      ≠ (saliencyMap clfC 1 [0,0,0,0] 1 [true,true,true,true]).2 ∧
    ([true,true,true,true] : List Bool).getD
      (saliencyMap clfC 1 [0,0,0,0] 1 [true,true,true,true]).1 false = true ∧
    ([true,true,true,true] : List Bool).getD
      (saliencyMap clfC 1 [0,0,0,0] 1 [true,true,true,true]).2 false = true :=
  ⟨(C5_saliency_selects_top2_eligible clfC 1 [0,0,0,0] 1 [true,true,true,true]
      (by decide) 0 1 (by decide) (by decide) (by decide) (by decide) (by decide)).1,
   (C5_saliency_selects_top2_eligible clfC 1 [0,0,0,0] 1 [true,true,true,true]
      (by decide) 0 1 (by decide) (by decide) (by decide) (by decide) (by decide)).2.1,
   (C5_saliency_selects_top2_eligible clfC 1 [0,0,0,0] 1 [true,true,true,true]
      (by decide) 0 1 (by decide) (by decide) (by decide) (by decide) (by decide)).2.2.1⟩

theorem clipApply_bounds (theta clipMin clipMax v : ℚ) (hc : clipMin ≤ clipMax)
    (hv1 : clipMin ≤ v) (hv2 : v ≤ clipMax) :
    clipMin ≤ clipApply theta clipMin clipMax (v + theta) ∧
    clipApply theta clipMin clipMax (v + theta) ≤ clipMax := by
  rw [clipApply]
  by_cases ht : 0 < theta
  · rw [if_pos ht]
    exact ⟨le_min hc (by linarith), min_le_left _ _⟩
  · rw [if_neg ht]
    push_neg at ht
    exact ⟨le_max_left _ _, max_le hc (by linarith)⟩

theorem mem_set_clip (theta clipMin clipMax : ℚ) (row : List ℚ) (j : ℕ)
    (hc : clipMin ≤ clipMax)
    (hrow : ∀ v ∈ row, clipMin ≤ v ∧ v ≤ clipMax) :
    ∀ v ∈ row.set j (clipApply theta clipMin clipMax (row.getD j 0 + theta)),
      clipMin ≤ v ∧ v ≤ clipMax := by
  intro v hv
  by_cases hj : j < row.length
  · rcases List.mem_or_eq_of_mem_set hv with h | h
    · exact hrow v h
    · subst h
      have hmem : row.getD j 0 ∈ row := by
        rw [List.getD_eq_getElem _ _ hj]
        exact List.getElem_mem _
      obtain ⟨h1, h2⟩ := hrow _ hmem
      exact clipApply_bounds theta clipMin clipMax _ hc h1 h2
  · rw [List.set_eq_of_length_le (Nat.le_of_not_lt hj)] at hv
    exact hrow v hv

theorem perturbRow_bounds (theta clipMin clipMax : ℚ) (row : List ℚ) (jp : ℕ × ℕ)
    (hc : clipMin ≤ clipMax) (hrow : ∀ v ∈ row, clipMin ≤ v ∧ v ≤ clipMax) :
    ∀ v ∈ perturbRow theta clipMin clipMax row jp, clipMin ≤ v ∧ v ≤ clipMax := by
  simp only [perturbRow]
  exact mem_set_clip _ _ _ _ _ hc (mem_set_clip _ _ _ _ _ hc hrow)

theorem perturbRow_length (theta clipMin clipMax : ℚ) (row : List ℚ) (jp : ℕ × ℕ) :
    (perturbRow theta clipMin clipMax row jp).length = row.length := by
  simp only [perturbRow, List.length_set]

theorem mem_foldl_set (l : List (ℕ × List ℚ)) (base : List (List ℚ)) (r : List ℚ)
    (hr : r ∈ l.foldl (fun b p => b.set p.1 p.2) base) :
    r ∈ base ∨ ∃ p ∈ l, r = p.2 ∧ p.1 < base.length := by
  induction l generalizing base with
  | nil => exact Or.inl hr
  | cons p ps ih =>
    simp only [List.foldl_cons] at hr
    rcases ih (base.set p.1 p.2) hr with h | ⟨q, hq, hrq, hlen⟩
    · by_cases hp : p.1 < base.length
      · rcases List.mem_or_eq_of_mem_set h with h' | h'
        · exact Or.inl h'
        · exact Or.inr ⟨p, List.mem_cons_self _ _, h', hp⟩
      · rw [List.set_eq_of_length_le (Nat.le_of_not_lt hp)] at h
        exact Or.inl h
    · rw [List.length_set] at hlen
      exact Or.inr ⟨q, List.mem_cons_of_mem _ hq, hrq, hlen⟩

theorem mem_scatterRows (base : List (List ℚ)) (idx : List ℕ) (rows : List (List ℚ))
    (r : List ℚ) (hr : r ∈ scatterRows base idx rows) :
    r ∈ base ∨ ∃ p ∈ List.zip idx rows, r = p.2 ∧ p.1 < base.length := by
  rw [scatterRows] at hr
  exact mem_foldl_set _ _ _ hr

theorem mem_zip_zipWith {α β γ : Type} (g : α → γ → β) (as : List α) (cs : List γ)
    (p : α × β) (hp : p ∈ List.zip as (List.zipWith g as cs)) :
    ∃ c, p.2 = g p.1 c := by
  induction as generalizing cs with
  | nil => simp at hp
  | cons a as' ih =>
    cases cs with
    | nil => simp at hp
    | cons c cs' =>
      simp only [List.zipWith_cons_cons, List.zip_cons_cons, List.mem_cons] at hp
      rcases hp with h | h
      · exact ⟨c, by rw [h]⟩
      · exact ih cs' h

theorem jsmaIter_batch_invariant (P : List ℚ → Prop)
    (clf : Classifier) (theta gamma clipMin clipMax : ℚ) (F : ℕ)
    (s : BatchState) (active : List ℕ)
    (hpert : ∀ row, P row → ∀ jp, P (perturbRow theta clipMin clipMax row jp))
    (hbase : ∀ row ∈ s.batch, P row) :
    ∀ row ∈ (jsmaIter clf theta gamma clipMin clipMax F s active).1.batch, P row := by
  intro row hrow
  simp only [jsmaIter] at hrow
  rcases mem_scatterRows _ _ _ _ hrow with h | ⟨p, hp, hrp, hplen⟩
  · exact hbase row h
  · obtain ⟨jp, hjp⟩ := mem_zip_zipWith _ active (iterFeatInd clf theta s active) p hp
    rw [hrp, hjp]
    apply hpert
    apply hbase
    rw [List.getD_eq_getElem _ _ hplen]
    exact List.getElem_mem _

theorem jsmaLoop_batch_invariant (P : List ℚ → Prop)
    (clf : Classifier) (theta gamma clipMin clipMax : ℚ) (F : ℕ)
    (hpert : ∀ row, P row → ∀ jp, P (perturbRow theta clipMin clipMax row jp))
    (fuel : ℕ) (p : BatchState × List ℕ)
    (hbase : ∀ row ∈ p.1.batch, P row) :
    ∀ row ∈ (jsmaLoop clf theta gamma clipMin clipMax F fuel p).batch, P row := by
  induction fuel generalizing p with
  | zero => exact hbase
  | succ n ih =>
    rw [jsmaLoop]
    by_cases hp : p.2 = []
    · rw [if_pos hp]
      exact hbase
    · rw [if_neg hp]
      exact ih _ (jsmaIter_batch_invariant P clf theta gamma clipMin clipMax F
        p.1 p.2 hpert hbase)

theorem generateChunks_batch_invariant (P : List ℚ → Prop)
    (clf : Classifier) (theta gamma clipMin clipMax : ℚ) (F fuel batchSize : ℕ)
    (hpert : ∀ row, P row → ∀ jp, P (perturbRow theta clipMin clipMax row jp))
    (nb : ℕ) (xs : List (List ℚ)) (ps ts : List ℕ)
    (hbase : ∀ row ∈ xs, P row) :
    ∀ row ∈ generateChunks clf theta gamma clipMin clipMax F fuel batchSize nb xs ps ts,
      P row := by
  induction nb generalizing xs ps ts with
  | zero =>
    intro row hrow
    simp [generateChunks] at hrow
  | succ n ih =>
    intro row hrow
    rw [generateChunks] at hrow
    rcases List.mem_append.mp hrow with h | h
    · refine jsmaLoop_batch_invariant P clf theta gamma clipMin clipMax F hpert fuel _
        ?_ row h
      intro r hr
      exact hbase r (List.mem_of_mem_take hr)
    · exact ih _ _ _ (fun r hr => hbase r (List.mem_of_mem_drop hr)) row h

/-- C6: for every input whose feature values all lie within
`[clip_min, clip_max]`, every feature value of the adversarial array returned
by `generate` lies within `[clip_min, clip_max]` inclusive — each perturbation
adds `theta` and clips with `min clip_max` when `theta > 0` and with
`max clip_min` otherwise (lines 100-110), which preserves the bounds. -/
theorem C6_output_within_clip_bounds (clf : Classifier) (theta gamma clipMin clipMax : ℚ)
    (batchSize fuel : ℕ) (x : List (List ℚ)) (targets : List ℕ)
    (hc : clipMin ≤ clipMax)
    (hx : ∀ row ∈ x, ∀ v ∈ row, clipMin ≤ v ∧ v ≤ clipMax) :
    ∀ row ∈ generate clf theta gamma clipMin clipMax batchSize fuel x targets,
      ∀ v ∈ row, clipMin ≤ v ∧ v ≤ clipMax := by
  rw [generate]
  exact generateChunks_batch_invariant (fun row => ∀ v ∈ row, clipMin ≤ v ∧ v ≤ clipMax)
    clf theta gamma clipMin clipMax _ fuel batchSize
    (fun row hrow jp => perturbRow_bounds theta clipMin clipMax row jp hc hrow)
    _ x _ targets hx

theorem foldl_set_length (l : List (ℕ × List ℚ)) (base : List (List ℚ)) :
    (l.foldl (fun b p => b.set p.1 p.2) base).length = base.length := by
  induction l generalizing base with
  | nil => rfl
  | cons p ps ih =>
    simp only [List.foldl_cons]
    rw [ih, List.length_set]

theorem scatterRows_length (base : List (List ℚ)) (idx : List ℕ)
    (rows : List (List ℚ)) : (scatterRows base idx rows).length = base.length := by
  rw [scatterRows]
  exact foldl_set_length _ _

theorem jsmaIter_batch_length (clf : Classifier) (theta gamma clipMin clipMax : ℚ)
    (F : ℕ) (s : BatchState) (active : List ℕ) :
    (jsmaIter clf theta gamma clipMin clipMax F s active).1.batch.length
      = s.batch.length := by
  simp only [jsmaIter]
  exact scatterRows_length _ _ _

theorem jsmaLoop_batch_length (clf : Classifier) (theta gamma clipMin clipMax : ℚ)
    (F fuel : ℕ) (p : BatchState × List ℕ) :
    (jsmaLoop clf theta gamma clipMin clipMax F fuel p).batch.length
      = p.1.batch.length := by
  induction fuel generalizing p with
  | zero => rfl
  | succ n ih =>
    rw [jsmaLoop]
    by_cases hp : p.2 = []
    · rw [if_pos hp]
    · rw [if_neg hp, ih, jsmaIter_batch_length]

theorem processBatch_length (clf : Classifier) (theta gamma clipMin clipMax : ℚ)
    (F fuel : ℕ) (chunk : List (List ℚ)) (preds targets : List ℕ) :
    (processBatch clf theta gamma clipMin clipMax F fuel chunk preds targets).length
      = chunk.length := by
  rw [processBatch, jsmaLoop_batch_length]
  rfl

theorem generateChunks_length (clf : Classifier) (theta gamma clipMin clipMax : ℚ)
    (F fuel batchSize : ℕ) (nb : ℕ) (xs : List (List ℚ)) (ps ts : List ℕ) :
    (generateChunks clf theta gamma clipMin clipMax F fuel batchSize nb xs ps ts).length
      = min (nb * batchSize) xs.length := by
  induction nb generalizing xs ps ts with
  | zero => simp [generateChunks]
  | succ n ih =>
    rw [generateChunks, List.length_append, processBatch_length, ih,
      List.length_take, List.length_drop]
    have hmul : (n + 1) * batchSize = n * batchSize + batchSize := by ring
    rw [hmul]
    generalize n * batchSize = t
    omega

theorem ceil_div_mul_ge (L bs : ℕ) (hbs : 0 < bs) : L ≤ ((L + bs - 1) / bs) * bs := by
  have h := Nat.div_add_mod (L + bs - 1) bs
  have hr : (L + bs - 1) % bs < bs := Nat.mod_lt _ hbs
  generalize hq : (L + bs - 1) / bs = q at h
  generalize hm : (L + bs - 1) % bs = r at h hr
  have : bs * q = q * bs := Nat.mul_comm _ _
  generalize huv : q * bs = t at *
  omega

/-- C10: `generate` never mutates its input `x` — line 60 copies `x` with
`np.copy` before any write, and all writes target the copy, so the `x` buffer
threaded through `generateFull` is returned exactly as given — and the returned
adversarial array has the same shape as `x`: one output row per input row, and
each output row has the common input row length `F`. -/
theorem C10_input_not_mutated (clf : Classifier) (theta gamma clipMin clipMax : ℚ)
    (batchSize fuel : ℕ) (x : List (List ℚ)) (targets : List ℕ)
    (hbs : 0 < batchSize)
    (hrect : ∀ row ∈ x, row.length = (x.headD []).length) :
    (generateFull clf theta gamma clipMin clipMax batchSize fuel x targets).1 = x ∧
    (generateFull clf theta gamma clipMin clipMax batchSize fuel x targets).2.length
      = x.length ∧
    ∀ row ∈ (generateFull clf theta gamma clipMin clipMax batchSize fuel x targets).2,
      row.length = (x.headD []).length := by
  refine ⟨rfl, ?_, ?_⟩
  · show (generate clf theta gamma clipMin clipMax batchSize fuel x targets).length
      = x.length
    rw [generate, generateChunks_length]
    have := ceil_div_mul_ge x.length batchSize hbs
    omega
  · show ∀ row ∈ generate clf theta gamma clipMin clipMax batchSize fuel x targets,
      row.length = (x.headD []).length
    rw [generate]
    refine generateChunks_batch_invariant (fun row => row.length = (x.headD []).length)
      clf theta gamma clipMin clipMax _ fuel batchSize ?_ _ x _ targets hrect
    intro row hrow jp
    rw [perturbRow_length, hrow]

section MoreConcreteWitnesses

attribute [local semireducible] Rat.mul Rat.inv Rat.add Rat.sub

/-- Witness for `C6_output_within_clip_bounds`: a concrete run with clip values
`[0, 1]` whose inputs start in range; the first output value lies in range. -/
theorem C6_output_within_clip_bounds_witness :
    (0 : ℚ) ≤ ((generate clfC 1 1 0 1 2 3 [[0,0,0,0]] [1]).getD 0 []).getD 0 0 ∧
    ((generate clfC 1 1 0 1 2 3 [[0,0,0,0]] [1]).getD 0 []).getD 0 0 ≤ 1 :=
  C6_output_within_clip_bounds clfC 1 1 0 1 2 3 [[0,0,0,0]] [1]
    (by norm_num) (by norm_num)
    ((generate clfC 1 1 0 1 2 3 [[0,0,0,0]] [1]).getD 0 []) (by decide)
    (((generate clfC 1 1 0 1 2 3 [[0,0,0,0]] [1]).getD 0 []).getD 0 0) (by decide)

/-- Witness for `C10_input_not_mutated` at a concrete one-sample input: the
input buffer is returned unchanged and the output shape is `1 × 4`. -/
theorem C10_input_not_mutated_witness :
    (generateFull clfC 1 1 0 1 2 3 [[0,0,0,0]] [1]).1 = [[0,0,0,0]] ∧
    (generateFull clfC 1 1 0 1 2 3 [[0,0,0,0]] [1]).2.length = 1 ∧
    ((generateFull clfC 1 1 0 1 2 3 [[0,0,0,0]] [1]).2.getD 0 []).length = 4 := by
  have h := C10_input_not_mutated clfC 1 1 0 1 2 3 [[0,0,0,0]] [1]
    (by norm_num) (by intro row hrow; simp at hrow; rw [hrow]; rfl)
  exact ⟨h.1, h.2.1,
    h.2.2 ((generateFull clfC 1 1 0 1 2 3 [[0,0,0,0]] [1]).2.getD 0 []) (by decide)⟩

end MoreConcreteWitnesses
